import Mathlib

/-!
# Verification of the kvmboi async KVM client

Shallow embedding of `src/kvmboi` (Python): the transport session
(`async_client.py`), the HID façade (`hid.py`) and the MSD façade
(`msd.py`), together with proofs settling the frozen claims about them.

Modelling conventions:
* Python dicts parsed from JSON become the inductive `Json`; `dict.get`
  becomes `Json.get` / `Json.getD`; Python truthiness becomes
  `Json.truthy`.
* Raised exceptions become `Except ApiFailure` values.
* `await asyncio.sleep(t)` becomes an explicit `HidEvent.sleep` entry in
  the emitted event trace; the events actually sent over the WebSocket
  are the `sentEvents` projection of that trace.
* Python float arithmetic in `drag` is modelled as IEEE-754 binary64
  (round to nearest, ties to even) over dyadic rationals via
  `roundDouble`, with `int()` truncation toward zero as `pyInt`.
-/

namespace Kvmboi

/-- JSON values as produced by `resp.json()`. Objects keep their fields as
an association list. -/
inductive Json where
  | null : Json
  | bool (b : Bool) : Json
  | num (n : Int) : Json
  | str (s : String) : Json
  | obj (fields : List (String × Json)) : Json
  | arr (elems : List Json) : Json

/-- `d.get(k)` on a Python dict: `some v` when the key is present, `none`
otherwise (and `none` on non-objects, where Python would raise). -/
def Json.get : Json → String → Option Json
  | .obj fields, k => fields.lookup k
  | _, _ => none

/-- `d.get(k, default)`. -/
def Json.getD (j : Json) (k : String) (d : Json) : Json :=
  (j.get k).getD d

/-- Python truthiness of a JSON value: `None`, `False`, `0`, `""`, `{}`
and `[]` are falsy, everything else truthy. -/
def Json.truthy : Json → Bool
  | .null => false
  | .bool b => b
  | .num n => n != 0
  | .str s => s != ""
  | .obj fields => !fields.isEmpty
  | .arr elems => !elems.isEmpty

/-- The errors a transport-session call can surface (`exceptions.py` plus
the generic `httpx` statuses): `auth` is `AuthError`, `api` is `APIError`
(carrying the envelope fields `error` / `error_msg` values), `http` is the
generic `httpx.HTTPStatusError` raised by `raise_for_status()`, and
`keyError` models a Python `KeyError` on a missing mandatory field. -/
inductive ApiFailure where
  | auth (msg : String) : ApiFailure
  | api (code msg : Json) : ApiFailure
  | http (status : Nat) : ApiFailure
  | keyError : ApiFailure

/-- Is this failure an `AuthError`? -/
def ApiFailure.isAuth : ApiFailure → Bool
  | .auth _ => true
  | _ => false

/-- `httpx.Response.raise_for_status` succeeds exactly on 2xx statuses. -/
def is2xx (status : Nat) : Bool :=
  200 ≤ status && status < 300

/-- `AsyncKVMClient._check_response` (async_client.py lines 92-105): the
response-envelope decoder. Takes the HTTP status and the parsed JSON body
and returns the result payload or the raised error. -/
def check_response (status : Nat) (body : Json) : Except ApiFailure Json :=
  if status == 401 then .error (.auth "Authentication failed")
  else if status == 403 then .error (.auth "Forbidden")
  else if !is2xx status then .error (.http status)
  else if !(body.getD "ok" .null).truthy then
    let result := body.getD "result" (.obj [])
    .error (.api (result.getD "error" (.str "UnknownError"))
                 (result.getD "error_msg" (.str "Unknown error")))
  else .ok (body.getD "result" (.obj []))

/-- `AsyncKVMClient._api_get`: issues the GET and decodes the response.
Modelled on the answer of the device (status, parsed body). -/
def api_get (status : Nat) (body : Json) : Except ApiFailure Json :=
  check_response status body

/-- `AsyncKVMClient._api_post`: issues the POST and decodes the response. -/
def api_post (status : Nat) (body : Json) : Except ApiFailure Json :=
  check_response status body

/-- `AsyncKVMClient._api_get_bytes` (async_client.py lines 85-90): raises
`AuthError` on 401, otherwise `raise_for_status()` (generic error on any
other non-2xx status, 403 included), otherwise returns the raw content. -/
def api_get_bytes (status : Nat) (content : List Nat) :
    Except ApiFailure (List Nat) :=
  if status == 401 then .error (.auth "Authentication failed")
  else if !is2xx status then .error (.http status)
  else .ok content

/-! ## HID façade (`hid.py`)

Each operation is embedded as the trace of actions it performs, in order:
WebSocket sends (`key`, `mouseMove`, `mouseButton`, ...) interleaved with
the `asyncio.sleep` pacing delays (milliseconds). -/

/-- One action of a HID operation: a WebSocket event frame or a pacing
delay. -/
inductive HidEvent where
  | key (k : String) (state : Bool) : HidEvent
  | mouseMove (x y : Int) : HidEvent
  | mouseButton (button : String) (state : Bool) : HidEvent
  | mouseWheel (dx dy : Int) : HidEvent
  | mouseRel (dx dy : Int) : HidEvent
  | sleep (ms : Nat) : HidEvent
deriving DecidableEq

/-- Is this action an actual WebSocket send (as opposed to a delay)? -/
def HidEvent.isSend : HidEvent → Bool
  | .sleep _ => false
  | _ => true

/-- The events actually sent on the WebSocket by a trace: the trace with
the pacing delays dropped, order preserved. -/
def sentEvents (trace : List HidEvent) : List HidEvent :=
  trace.filter HidEvent.isSend

/-- `AsyncKeyboard.shortcut` (hid.py lines 30-41): press all keys in
order with 20ms pacing, settle 50ms, release in reverse order with 20ms
pacing. -/
def shortcut (keys : List String) : List HidEvent :=
  (keys.flatMap fun k => [.key k true, .sleep 20]) ++ [.sleep 50] ++
  (keys.reverse.flatMap fun k => [.key k false, .sleep 20])

/-- `AsyncMouse.move`. -/
def mouseMoveTo (x y : Int) : List HidEvent :=
  [.mouseMove x y]

/-- `AsyncMouse.click` (hid.py lines 62-69): move only when BOTH
coordinates are provided (`if x is not None and y is not None`), then
button-down, settle 50ms, button-up. -/
def click (x y : Option Int) (button : String) : List HidEvent :=
  (match x, y with
   | some a, some b => mouseMoveTo a b ++ [.sleep 50]
   | _, _ => []) ++
  [.mouseButton button true, .sleep 50, .mouseButton button false]

/-- Python `int()` applied to an exact rational value: truncation toward
zero. -/
def pyInt (q : ℚ) : Int :=
  q.num.tdiv q.den

/-- Round a rational to the nearest integer, ties to even (the IEEE-754
rounding of a scaled significand). -/
def roundHalfEven (x : ℚ) : ℤ :=
  if x - ⌊x⌋ < 1 / 2 then ⌊x⌋
  else if 1 / 2 < x - ⌊x⌋ then ⌊x⌋ + 1
  else if ⌊x⌋ % 2 = 0 then ⌊x⌋ else ⌊x⌋ + 1

/-- Scale a positive rational into the binary64 significand window
`[2^52, 2^53)` by repeated doubling or halving, returning the scaled
value and the base-2 exponent taken out. The fuel bound 2200 covers the
whole finite double range. -/
def normMantissa : Nat → ℚ → ℤ → ℚ × ℤ
  | 0, s, e => (s, e)
  | fuel + 1, s, e =>
      if s < 2 ^ 52 then normMantissa fuel (s * 2) (e - 1)
      else if (2 ^ 53 : ℚ) ≤ s then normMantissa fuel (s / 2) (e + 1)
      else (s, e)

/-- IEEE-754 binary64 rounding (round to nearest, ties to even) of an
exact rational, as a rational: the significand is scaled into
`[2^52, 2^53)`, rounded half-to-even, and scaled back. Exact on the
normal finite double range, which covers every value arising in `drag`
(CPython raises OverflowError outside it). -/
def roundDouble (q : ℚ) : ℚ :=
  if q = 0 then 0
  else
    let p := normMantissa 2200 |q| 0
    let m := roundHalfEven p.1
    (if q < 0 then -(m : ℚ) else (m : ℚ)) * 2 ^ p.2

/-- The interpolated coordinate of `AsyncMouse.drag` at step `i` of
`steps`, computed as CPython computes `int(a + (b - a) * t)` with
`t = i / steps` in binary64 floating point: `t` is the correctly rounded
float quotient of the ints `i` and `steps`; the int operands of
`(b - a) * t` and `a + ...` are converted to doubles and each operation
rounds once; `int()` truncates the final double toward zero. -/
def dragInterp (a b : Int) (i steps : Nat) : Int :=
  let t := roundDouble ((i : ℚ) / (steps : ℚ))
  let p := roundDouble (roundDouble ((b : ℚ) - (a : ℚ)) * t)
  pyInt (roundDouble (roundDouble (a : ℚ) + p))

/-- `AsyncMouse.drag` (hid.py lines 89-103): move to the start point,
settle 50ms, button-down, settle 50ms, then for `i = 1 .. steps` move to
the linearly interpolated point with 20ms pacing, then button-up. -/
def drag (fromX fromY toX toY : Int) (button : String) (steps : Nat) :
    List HidEvent :=
  mouseMoveTo fromX fromY ++ [.sleep 50] ++
  [.mouseButton button true, .sleep 50] ++
  ((List.range' 1 steps).flatMap fun i =>
    mouseMoveTo (dragInterp fromX toX i steps) (dragInterp fromY toY i steps) ++
    [.sleep 20]) ++
  [.mouseButton button false]

/-! ## Session teardown (`AsyncKVMClient.close`) -/

/-- The session resources `close` manipulates: the cached WebSocket
handle (`self._ws`, a connection id when set) and whether the HTTP client
is still open (released by `aclose`). -/
structure SessionRes where
  ws : Option Nat
  httpOpen : Bool
deriving DecidableEq

/-- `AsyncKVMClient.close` (async_client.py lines 159-163):
`if self._ws: await self._ws.close(); self._ws = None` then
`await self._http.aclose()`. There is no try/finally: when the WebSocket
sub-close raises (`wsCloseFails`), the exception propagates before
`self._ws = None` and before `aclose()` run. Returns the session state
after the call and the propagated error, if any. -/
def close (wsCloseFails : Bool) (s : SessionRes) :
    SessionRes × Option String :=
  match s.ws with
  | some _ =>
      if wsCloseFails then (s, some "ws close failed")
      else ({ ws := none, httpOpen := false }, none)
  | none => ({ s with httpOpen := false }, none)

/-! ## Token acquisition (`AsyncKVMClient._ensure_token`) -/

/-- `AsyncKVMClient._ensure_token` (async_client.py lines 107-118).
State is the cached token `self._token` (a JSON value, `none` when
unset); `loginBody` is the parsed body the device would answer to the
login POST. Returns the outcome of the call, the new cached-token state, and
the number of HTTP requests issued (0 or 1). `if self._token:` is a
Python truthiness test, so a cached falsy token (e.g. `""`) re-issues the
login. On `ok` falsy the `AuthError` is raised before any assignment, so
the token stays uncached; on success `body["result"]["token"]` is
extracted (a `KeyError` when missing) and cached. -/
def ensure_token (tok : Option Json) (loginBody : Json) :
    Except ApiFailure Json × Option Json × Nat :=
  match tok with
  | some t =>
      if t.truthy then (.ok t, some t, 0)
      else ensureTokenLogin tok loginBody
  | none => ensureTokenLogin tok loginBody
where
  /-- The login path: POST `auth/login`, raise `AuthError` when the body
  is not `ok`, else extract and cache `body["result"]["token"]`. -/
  ensureTokenLogin (tok : Option Json) (loginBody : Json) :
      Except ApiFailure Json × Option Json × Nat :=
    if !(loginBody.getD "ok" .null).truthy then
      (.error (.auth "Login failed"), tok, 1)
    else
      match loginBody.get "result" with
      | none => (.error .keyError, tok, 1)
      | some r =>
          match r.get "token" with
          | none => (.error .keyError, tok, 1)
          | some t => (.ok t, some t, 1)

/-! ## WebSocket drain and send (`_ensure_ws` / `ws_send`) -/

/-- One `recv` outcome on the freshly connected WebSocket: an inbound
message carrying its `event_type` (via `json.loads(msg)`), or the 500ms
timeout elapsing with nothing received. -/
inductive InMsg where
  | msg (eventType : String) : InMsg
  | timeout : InMsg
deriving DecidableEq

/-- The drain loop of `AsyncKVMClient._ensure_ws` (async_client.py lines
136-145): up to `fuel` (= 20) iterations; each `recv` consumes the next
element of the inbound stream; a message with `event_type == "streamer"`
breaks the loop, a timeout raises `asyncio.TimeoutError` which is caught
and ends the drain. Returns the inbound stream left for later
consumers — every consumed element is discarded. An exhausted stream
behaves as a timeout (`recv` blocks until the 500ms deadline). -/
def drain : Nat → List InMsg → List InMsg
  | 0, s => s
  | _ + 1, [] => []
  | _ + 1, InMsg.timeout :: rest => rest
  | n + 1, InMsg.msg t :: rest =>
      if t == "streamer" then rest else drain n rest

/-- The frame `AsyncKVMClient.ws_send` (async_client.py lines 149-151)
serializes: `{"event_type": event_type, "event": event}`. -/
structure Frame where
  event_type : String
  event : Json

/-- `AsyncKVMClient.ws_send` on a session whose WebSocket has just been
(re)established: `_ensure_ws` drains the initial state burst from the
inbound stream, then the frame is sent. Returns the sent frame and the
inbound stream as later consumers see it. `ws_send` never reads an
inbound message into its result. -/
def ws_send (eventType : String) (event : Json) (inbound : List InMsg) :
    Frame × List InMsg :=
  (⟨eventType, event⟩, drain 20 inbound)

/-! ## MSD upload (`msd.py`) -/

/-- `pathlib.Path(p).name`, modelled for POSIX-style paths: the last
non-empty `/`-separated component (so `"a/b/c.iso"` ↦ `"c.iso"` and
`"a/b/"` ↦ `"b"`). -/
def baseName (p : String) : String :=
  (((p.toList.splitOn '/').filter
    (fun c => c ≠ [])).reverse.headD []).asString

/-- The request `AsyncMSD.upload` issues: POST target path, the `image`
query parameter, and the request body bytes. -/
structure UploadReq where
  path : String
  image : String
  body : List Nat
deriving DecidableEq

/-- `AsyncMSD.upload` (msd.py lines 25-40). `fs` maps a local file path
to its full contents (`none`: no such file, `read_bytes` raises).
`name = image_name or path.name` is a Python truthiness fallback: a
supplied empty-string name falls back to the base name. The full file
contents are posted as the request body to `msd/write`. -/
def upload (fs : String → Option (List Nat)) (filePath : String)
    (imageName : Option String) : Option UploadReq :=
  let name :=
    match imageName with
    | some n => if n ≠ "" then n else baseName filePath
    | none => baseName filePath
  (fs filePath).map fun data =>
    { path := "msd/write", image := name, body := data }

/-! ## Helper lemmas -/

theorem sentEvents_append (a b : List HidEvent) :
    sentEvents (a ++ b) = sentEvents a ++ sentEvents b := by
  simp [sentEvents]

theorem sentEvents_flatMap_send_sleep {α : Type} (l : List α)
    (f : α → HidEvent) (t : Nat) (h : ∀ a, (f a).isSend = true) :
    sentEvents (l.flatMap fun a => [f a, .sleep t]) = l.map f := by
  induction l with
  | nil => rfl
  | cons a l ih =>
      simp only [sentEvents] at ih ⊢
      have hs : HidEvent.isSend (.sleep t) = false := rfl
      simp [List.filter_cons, h a, hs, ih]

/-! ## Claim C1 -/

/-- Claim C1, counterexample: `_api_get_bytes` on an HTTP 403 response
raises the generic `raise_for_status` error, not `AuthError` — only 401
is special-cased in `_api_get_bytes` (async_client.py lines 85-90). -/
theorem C1_getBytes_403_not_auth :
    api_get_bytes 403 [] = Except.error (ApiFailure.http 403) ∧
    (ApiFailure.http 403).isAuth = false :=
  ⟨rfl, rfl⟩

/-- Claim C1, amended: `_api_get` and `_api_post` raise `AuthError` on
both HTTP 401 and HTTP 403; `_api_get_bytes` raises `AuthError` on
HTTP 401 but the generic HTTP status error on HTTP 403. -/
theorem C1_auth_status_behavior (body : Json) (content : List Nat) :
    api_get 401 body = .error (.auth "Authentication failed") ∧
    api_get 403 body = .error (.auth "Forbidden") ∧
    api_post 401 body = .error (.auth "Authentication failed") ∧
    api_post 403 body = .error (.auth "Forbidden") ∧
    api_get_bytes 401 content = .error (.auth "Authentication failed") ∧
    api_get_bytes 403 content = .error (.http 403) :=
  ⟨rfl, rfl, rfl, rfl, rfl, rfl⟩

/-! ## Claim C2 -/

/-- Claim C2, counterexample: when the WebSocket sub-close fails, `close`
propagates the error without releasing the HTTP client (there is no
try/finally around `await self._ws.close()`), so resources are NOT
released on that exit path. -/
theorem C2_close_ws_failure_leaks_http :
    close true ⟨some 0, true⟩ = (⟨some 0, true⟩, some "ws close failed") ∧
    (close true ⟨some 0, true⟩).1.httpOpen = true ∧
    (close true ⟨some 0, true⟩).2.isSome = true :=
  ⟨rfl, rfl, rfl⟩

/-- Claim C2, amended: when the WebSocket sub-close succeeds (or no
WebSocket is open), `close` closes the WebSocket, releases the HTTP
client and raises no error; a second `close` after a successful one does
not error and leaves no open connection. But when the WebSocket sub-close
fails, the error propagates and the HTTP client is NOT released on that
path. -/
theorem C2_close_behavior (s : SessionRes) (c : Nat) (httpWasOpen : Bool) :
    close false s = (⟨none, false⟩, none) ∧
    close false (close false s).1 = (⟨none, false⟩, none) ∧
    close true ⟨some c, httpWasOpen⟩ =
      (⟨some c, httpWasOpen⟩, some "ws close failed") := by
  obtain ⟨ws, ho⟩ := s
  cases ws <;> simp [close]

/-! ## Claim C4 -/

/-- Claim C4 (confirmed): `shortcut A B` sends exactly the four key
events key-down A, key-down B, key-up B, key-up A, in that order; in
general `shortcut` presses all given keys down in the order given and
releases them in reverse order. -/
theorem C4_shortcut_order (A B : String) (keys : List String) :
    sentEvents (shortcut [A, B]) =
      [.key A true, .key B true, .key B false, .key A false] ∧
    sentEvents (shortcut keys) =
      (keys.map fun k => .key k true) ++
      (keys.reverse.map fun k => .key k false) := by
  constructor
  · simp [shortcut, sentEvents, HidEvent.isSend]
  · simp only [shortcut, sentEvents_append]
    rw [sentEvents_flatMap_send_sleep keys (fun k => .key k true) 20
          (fun _ => rfl),
        sentEvents_flatMap_send_sleep keys.reverse (fun k => .key k false) 20
          (fun _ => rfl)]
    simp [sentEvents, HidEvent.isSend]

/-! ## Claim C10 -/

/-- Claim C10 (confirmed): when exactly one of the two coordinates is
provided to `click` (or neither), no mouse-move event is sent — only
button-down then button-up; the move is sent exactly when both
coordinates are provided. -/
theorem C10_click_single_coordinate (x y : Int) (b : String) :
    sentEvents (click (some x) none b) =
      [.mouseButton b true, .mouseButton b false] ∧
    sentEvents (click none (some y) b) =
      [.mouseButton b true, .mouseButton b false] ∧
    sentEvents (click none none b) =
      [.mouseButton b true, .mouseButton b false] ∧
    sentEvents (click (some x) (some y) b) =
      [.mouseMove x y, .mouseButton b true, .mouseButton b false] := by
  refine ⟨?_, ?_, ?_, ?_⟩ <;>
    simp [click, mouseMoveTo, sentEvents, HidEvent.isSend]

/-! ## Claim C3 -/

/-- Claim C3 (confirmed): on a 2xx response, `_check_response` returns
the result payload of the envelope when the success flag `ok` is `true`
(an absent `result` defaults to the empty mapping), and when `ok` is
`false` it raises `APIError` whose code and message are `result.error`
and `result.error_msg` of the envelope, defaulting to "UnknownError" and
"Unknown error" when absent. -/
theorem C3_envelope_decode (status : Nat) (body : Json)
    (h2 : 200 ≤ status) (h3 : status < 300) :
    (body.get "ok" = some (.bool true) →
      check_response status body = .ok ((body.get "result").getD (.obj []))) ∧
    (body.get "ok" = some (.bool false) →
      check_response status body = .error (.api
        (((body.get "result").getD (.obj [])).getD "error"
          (.str "UnknownError"))
        (((body.get "result").getD (.obj [])).getD "error_msg"
          (.str "Unknown error")))) := by
  have h401 : (status == 401) = false := by
    simp only [beq_eq_false_iff_ne, ne_eq]
    omega
  have h403 : (status == 403) = false := by
    simp only [beq_eq_false_iff_ne, ne_eq]
    omega
  have hok : is2xx status = true := by
    simp only [is2xx, Bool.and_eq_true, decide_eq_true_eq]
    omega
  constructor
  · intro h
    simp [check_response, h401, h403, hok, Json.getD, h, Json.truthy]
  · intro h
    simp [check_response, h401, h403, hok, Json.getD, h, Json.truthy]

/-- Claim C3, witness: a 200 response with `ok: true` and no `result`
field yields the empty mapping; a 200 response with `ok: false` and an
error envelope yields `APIError` with exactly those fields. -/
theorem C3_envelope_decode_witness :
    check_response 200 (Json.obj [("ok", Json.bool true)]) =
      .ok (.obj []) ∧
    check_response 200 (Json.obj [("ok", Json.bool false),
        ("result", Json.obj [("error", Json.str "MsdError"),
                             ("error_msg", Json.str "busy")])]) =
      .error (.api (.str "MsdError") (.str "busy")) := by
  constructor
  · exact (C3_envelope_decode 200 _ (by decide) (by decide)).1 rfl
  · exact (C3_envelope_decode 200 _ (by decide) (by decide)).2 rfl

/-! ## Claim C5 -/

theorem pyInt_intCast (b : Int) : pyInt (b : ℚ) = b := by
  simp [pyInt, Rat.num_intCast, Rat.den_intCast, Int.tdiv_one]

theorem pyInt_eq_floor (q : ℚ) (h : 0 ≤ q) : pyInt q = ⌊q⌋ := by
  rw [pyInt, Rat.floor_def]
  exact Int.tdiv_eq_ediv (Rat.num_nonneg.mpr h) (Int.ofNat_nonneg _)

theorem roundHalfEven_intCast (m : ℤ) : roundHalfEven (m : ℚ) = m := by
  rw [roundHalfEven, Int.floor_intCast, if_pos]
  norm_num

theorem roundHalfEven_eq_floor (x : ℚ) (f : ℤ) (hf : ⌊x⌋ = f)
    (hr : x - f < 1 / 2) : roundHalfEven x = f := by
  rw [roundHalfEven, hf, if_pos hr]

/-- `normMantissa` preserves the represented value `s * 2 ^ e`. -/
theorem normMantissa_value (fuel : Nat) :
    ∀ (s : ℚ) (e : ℤ),
      (normMantissa fuel s e).1 * 2 ^ (normMantissa fuel s e).2 =
        s * 2 ^ e := by
  induction fuel with
  | zero => intro s e; rfl
  | succ fuel ih =>
      intro s e
      simp only [normMantissa]
      by_cases h1 : s < 2 ^ 52
      · rw [if_pos h1, ih]
        rw [zpow_sub_one₀ (two_ne_zero)]
        field_simp
        ring
      · rw [if_neg h1]
        by_cases h2 : (2 ^ 53 : ℚ) ≤ s
        · rw [if_pos h2, ih, zpow_add_one₀ (two_ne_zero)]
          field_simp
          ring
        · rw [if_neg h2]

/-- `normMantissa` keeps an integral scaled value integral when it stays
below `2 ^ 53` (the halving branch is never taken). -/
theorem normMantissa_intCast (fuel : Nat) :
    ∀ (n e : ℤ), 0 ≤ n → (n : ℚ) < 2 ^ 53 →
      ∃ m : ℤ, 0 ≤ m ∧ (m : ℚ) < 2 ^ 53 ∧
        (normMantissa fuel (n : ℚ) e).1 = (m : ℚ) := by
  induction fuel with
  | zero => intro n e hn hb; exact ⟨n, hn, hb, rfl⟩
  | succ fuel ih =>
      intro n e hn hb
      simp only [normMantissa]
      by_cases h1 : (n : ℚ) < 2 ^ 52
      · rw [if_pos h1]
        have hcast : ((n * 2 : ℤ) : ℚ) = (n : ℚ) * 2 := by push_cast; ring
        have hb2 : ((n * 2 : ℤ) : ℚ) < 2 ^ 53 := by
          rw [hcast]
          nlinarith
        obtain ⟨m, hm0, hm53, hm⟩ := ih (n * 2) (e - 1) (by omega) hb2
        rw [hcast] at hm
        exact ⟨m, hm0, hm53, hm⟩
      · rw [if_neg h1, if_neg (not_le.mpr hb)]
        exact ⟨n, hn, hb, rfl⟩

/-- The significand-and-exponent pair of a nonnegative integer below
`2 ^ 53` reassembles to the integer itself. -/
theorem roundDouble_core_int (p : ℤ) (h0 : 0 ≤ p) (h53 : (p : ℚ) < 2 ^ 53) :
    (roundHalfEven (normMantissa 2200 (p : ℚ) 0).1 : ℚ) *
      2 ^ (normMantissa 2200 (p : ℚ) 0).2 = (p : ℚ) := by
  obtain ⟨m, hm0, hm53, hm⟩ := normMantissa_intCast 2200 p 0 h0 h53
  have hv := normMantissa_value 2200 (p : ℚ) 0
  rw [hm, roundHalfEven_intCast]
  rw [hm] at hv
  simpa using hv

/-- A cast integer of magnitude below `2 ^ 53` is exactly representable:
binary64 rounding returns it unchanged. -/
theorem roundDouble_intCast (n : ℤ) (h : |n| < 2 ^ 53) :
    roundDouble (n : ℚ) = (n : ℚ) := by
  rcases lt_trichotomy n 0 with hn | hn | hn
  · have hne : (n : ℚ) ≠ 0 := by
      simpa using Int.ne_of_lt hn
    have hlt : (n : ℚ) < 0 := by exact_mod_cast hn
    rw [roundDouble, if_neg hne]
    simp only [if_pos hlt, abs_of_neg hlt]
    have hcast : -(n : ℚ) = ((-n : ℤ) : ℚ) := by push_cast; ring
    rw [hcast]
    have hb : ((-n : ℤ) : ℚ) < 2 ^ 53 := by
      rw [abs_of_neg hn] at h
      exact_mod_cast h
    have hcore := roundDouble_core_int (-n) (by omega) hb
    rw [neg_mul]
    rw [hcore]
    push_cast
    ring
  · subst hn
    simp [roundDouble]
  · have hpos : (0 : ℚ) < (n : ℚ) := by exact_mod_cast hn
    rw [roundDouble, if_neg (ne_of_gt hpos)]
    simp only [if_neg (not_lt.mpr (le_of_lt hpos)), abs_of_pos hpos]
    refine roundDouble_core_int n (le_of_lt hn) ?_
    rw [abs_of_pos hn] at h
    exact_mod_cast h

/-- Evaluation of `normMantissa` on a value that reaches the significand
window after `k` doublings. -/
theorem normMantissa_eval (k : Nat) :
    ∀ (fuel : Nat) (s : ℚ) (e : ℤ), k ≤ fuel →
      2 ^ 52 ≤ s * 2 ^ k → s * 2 ^ k < 2 ^ 53 →
      normMantissa fuel s e = (s * 2 ^ k, e - k) := by
  induction k with
  | zero =>
      intro fuel s e _ h1 h2
      rw [pow_zero, mul_one] at h1 h2
      cases fuel with
      | zero => simp [normMantissa]
      | succ f =>
          rw [normMantissa, if_neg (not_lt.mpr h1), if_neg (not_le.mpr h2)]
          simp
  | succ k ih =>
      intro fuel s e hk h1 h2
      cases fuel with
      | zero => omega
      | succ f =>
          have hs52 : s < 2 ^ 52 := by
            by_cases hs : s ≤ 0
            · calc s ≤ 0 := hs
                _ < 2 ^ 52 := by positivity
            · push_neg at hs
              have h2k : (1 : ℚ) ≤ 2 ^ k := one_le_pow₀ (by norm_num)
              rw [pow_succ] at h2
              nlinarith
          have e1 : s * 2 * 2 ^ k = s * 2 ^ (k + 1) := by
            rw [pow_succ]; ring
          rw [normMantissa, if_pos hs52,
            ih f (s * 2) (e - 1) (by omega) (by rw [e1]; exact h1)
              (by rw [e1]; exact h2)]
          refine congrArg₂ Prod.mk ?_ ?_
          · rw [e1]
          · push_cast
            ring

/-- Evaluation of binary64 rounding of a positive rational whose scaled
significand rounds down (fractional part below one half). -/
theorem roundDouble_eval (q : ℚ) (h0 : 0 < q) (k : Nat) (hk : k ≤ 2200)
    (h1 : 2 ^ 52 ≤ q * 2 ^ k) (h2 : q * 2 ^ k < 2 ^ 53) (f : ℤ)
    (hf : ⌊q * 2 ^ k⌋ = f) (hr : q * 2 ^ k - f < 1 / 2) :
    roundDouble q = (f : ℚ) * 2 ^ (-(k : ℤ)) := by
  rw [roundDouble, if_neg (ne_of_gt h0)]
  simp only [if_neg (not_lt.mpr (le_of_lt h0)), abs_of_pos h0]
  rw [normMantissa_eval k 2200 q 0 hk h1 h2]
  simp only [roundHalfEven_eq_floor _ f hf hr, zero_sub]

theorem zpow_neg_natCast_eq_div (f : ℤ) (k : ℕ) :
    (f : ℚ) * 2 ^ (-(k : ℤ)) = (f : ℚ) / 2 ^ k := by
  rw [zpow_neg, zpow_natCast, div_eq_mul_inv]

/-- The binary64 value of `7 / 10`: `0.7` is not a dyadic rational, and
float division rounds it to `6305039478318694 / 2 ^ 53`, slightly below
`7 / 10`. -/
theorem roundDouble_seven_tenths :
    roundDouble ((7 : ℚ) / 10) = (6305039478318694 : ℚ) / 2 ^ 53 := by
  have h := roundDouble_eval ((7 : ℚ) / 10) (by norm_num) 53 (by norm_num)
    (by norm_num) (by norm_num) 6305039478318694
    (by rw [Int.floor_eq_iff]; constructor <;> norm_num)
    (by norm_num)
  rw [h, zpow_neg_natCast_eq_div]
  norm_num

/-- The binary64 product `700 * 0.7`: the exact product of the doubles
is rounded to `8620171161763839 / 2 ^ 44 ≈ 489.99999999999994`, just
below `490`. -/
theorem roundDouble_product_rounds_down :
    roundDouble ((4413527634823085800 : ℚ) / 2 ^ 53) =
      (8620171161763839 : ℚ) / 2 ^ 44 := by
  have h := roundDouble_eval ((4413527634823085800 : ℚ) / 2 ^ 53)
    (by norm_num) 44 (by norm_num)
    (by norm_num) (by norm_num) 8620171161763839
    (by rw [Int.floor_eq_iff]; constructor <;> norm_num)
    (by norm_num)
  rw [h, zpow_neg_natCast_eq_div]
  norm_num

/-- A double is returned unchanged by a further rounding. -/
theorem roundDouble_dyadic_fixed :
    roundDouble ((8620171161763839 : ℚ) / 2 ^ 44) =
      (8620171161763839 : ℚ) / 2 ^ 44 := by
  have h := roundDouble_eval ((8620171161763839 : ℚ) / 2 ^ 44)
    (by norm_num) 44 (by norm_num)
    (by norm_num) (by norm_num) 8620171161763839
    (by rw [Int.floor_eq_iff]; constructor <;> norm_num)
    (by norm_num)
  rw [h, zpow_neg_natCast_eq_div]
  norm_num

/-- Claim C5, counterexample: at `drag(0, _, 700, _, steps = 10)` the
7th interpolation step sends a move to `x = 489` — in binary64,
`t = 7 / 10` rounds below `0.7` and `700 * t` is
`489.99999999999994...`, truncated by `int()` to `489` — while the exact
formula `int(from_x + (to_x - from_x) * 7/10)` claimed for the i-th move
gives `490`, so the claimed move event is not the one sent. -/
theorem C5_exact_interpolation_cex :
    dragInterp 0 700 7 10 = 489 ∧
    pyInt ((0 : ℚ) + ((700 : ℚ) - 0) * 7 / 10) = 490 ∧
    HidEvent.mouseMove (dragInterp 0 700 7 10) 0 ≠
      HidEvent.mouseMove (pyInt ((0 : ℚ) + ((700 : ℚ) - 0) * 7 / 10)) 0 := by
  have h489 : dragInterp 0 700 7 10 = 489 := by
    simp only [dragInterp]
    rw [show (((7 : ℕ) : ℚ) / ((10 : ℕ) : ℚ)) = (7 : ℚ) / 10 from by
      norm_num]
    rw [show (((700 : ℤ) : ℚ) - ((0 : ℤ) : ℚ)) = ((700 : ℤ) : ℚ) from by
      push_cast; ring]
    rw [roundDouble_intCast 700 (by decide), roundDouble_seven_tenths]
    rw [show ((700 : ℤ) : ℚ) * ((6305039478318694 : ℚ) / 2 ^ 53) =
        (4413527634823085800 : ℚ) / 2 ^ 53 from by push_cast; norm_num]
    rw [roundDouble_product_rounds_down, roundDouble_intCast 0 (by decide)]
    rw [show ((0 : ℤ) : ℚ) + (8620171161763839 : ℚ) / 2 ^ 44 =
        (8620171161763839 : ℚ) / 2 ^ 44 from by push_cast; ring]
    rw [roundDouble_dyadic_fixed, pyInt_eq_floor _ (by positivity)]
    rw [Int.floor_eq_iff]
    constructor <;> norm_num
  have h490 : pyInt ((0 : ℚ) + ((700 : ℚ) - 0) * 7 / 10) = 490 := by
    rw [show ((0 : ℚ) + ((700 : ℚ) - 0) * 7 / 10) = ((490 : ℤ) : ℚ) from by
      norm_num]
    rw [pyInt_intCast]
  refine ⟨h489, h490, ?_⟩
  rw [h489, h490]
  decide

/-- The 10th interpolation step lands exactly on the end point: with
coordinates below `2 ^ 52` in magnitude every value in the chain is
exactly representable, `t = 10 / 10` is exactly `1.0`, and the float
pipeline returns the end coordinate unchanged. -/
theorem dragInterp_last (a b : Int) (ha : |a| < 2 ^ 52)
    (hb : |b| < 2 ^ 52) : dragInterp a b 10 10 = b := by
  have hd53 : |b - a| < 2 ^ 53 := by
    have h1 := abs_sub b a
    have h2 : ((2 : ℤ) ^ 52 + 2 ^ 52 : ℤ) = 2 ^ 53 := by norm_num
    omega
  have ha53 : |a| < 2 ^ 53 := lt_trans ha (by norm_num)
  have hb53 : |b| < 2 ^ 53 := lt_trans hb (by norm_num)
  simp only [dragInterp]
  have ht : roundDouble (((10 : ℕ) : ℚ) / ((10 : ℕ) : ℚ)) = 1 := by
    have h10 : (((10 : ℕ) : ℚ) / ((10 : ℕ) : ℚ)) = ((1 : ℤ) : ℚ) := by
      norm_num
    rw [h10, roundDouble_intCast 1 (by norm_num)]
    norm_num
  have hsub : (b : ℚ) - (a : ℚ) = ((b - a : ℤ) : ℚ) := by push_cast; ring
  rw [ht, hsub, roundDouble_intCast (b - a) hd53, mul_one,
    roundDouble_intCast (b - a) hd53, roundDouble_intCast a ha53]
  have hsum : (a : ℚ) + ((b - a : ℤ) : ℚ) = ((b : ℤ) : ℚ) := by
    push_cast; ring
  rw [hsum, roundDouble_intCast b hb53, pyInt_intCast]

/-- Claim C5, amended: `drag` with `steps = 10` sends the initial move
to the start point, a button-down, then exactly 10 further move events —
the i-th to the coordinates `int(from + (to - from) * (i/10))` computed
in IEEE-754 binary64 floating point (`dragInterp`), which can differ by
one from the exact rational interpolation — and a button-up after them;
for coordinates below `2 ^ 52` in magnitude the 10th move lands exactly
on the end point. -/
theorem C5_drag_float_interpolation (fx fy tx ty : Int) (b : String) :
    sentEvents (drag fx fy tx ty b 10) =
      [.mouseMove fx fy, .mouseButton b true] ++
      ((List.range' 1 10).map fun i =>
        .mouseMove (dragInterp fx tx i 10) (dragInterp fy ty i 10)) ++
      [.mouseButton b false] ∧
    (|fx| < 2 ^ 52 → |tx| < 2 ^ 52 → dragInterp fx tx 10 10 = tx) ∧
    (|fy| < 2 ^ 52 → |ty| < 2 ^ 52 → dragInterp fy ty 10 10 = ty) := by
  refine ⟨?_, fun h1 h2 => dragInterp_last fx tx h1 h2,
    fun h1 h2 => dragInterp_last fy ty h1 h2⟩
  simp only [drag, mouseMoveTo, sentEvents_append]
  rw [show (fun i => [HidEvent.mouseMove (dragInterp fx tx i 10)
        (dragInterp fy ty i 10)] ++ [HidEvent.sleep 20]) =
      (fun i => [HidEvent.mouseMove (dragInterp fx tx i 10)
        (dragInterp fy ty i 10), HidEvent.sleep 20]) from rfl,
    sentEvents_flatMap_send_sleep (List.range' 1 10)
      (fun i => .mouseMove (dragInterp fx tx i 10) (dragInterp fy ty i 10))
      20 (fun _ => rfl)]
  simp [sentEvents, HidEvent.isSend]

/-- Claim C5, witness: at start 0 and end 700 the coordinate bounds
hold and the 10th interpolated move lands exactly on 700. -/
theorem C5_drag_float_interpolation_witness :
    |(0 : ℤ)| < 2 ^ 52 ∧ |(700 : ℤ)| < 2 ^ 52 ∧
    dragInterp 0 700 10 10 = 700 :=
  ⟨by decide, by decide,
    (C5_drag_float_interpolation 0 0 700 0 "left").2.1 (by decide)
      (by decide)⟩

/-! ## Claim C6 -/

theorem drain_is_drop (n : Nat) (s : List InMsg) :
    ∃ k, k ≤ n ∧ drain n s = s.drop k := by
  induction n generalizing s with
  | zero => exact ⟨0, Nat.le_refl 0, rfl⟩
  | succ n ih =>
      match s with
      | [] => exact ⟨0, Nat.zero_le _, by simp [drain]⟩
      | InMsg.timeout :: rest => exact ⟨1, by omega, rfl⟩
      | InMsg.msg t :: rest =>
          by_cases ht : t == "streamer"
          · exact ⟨1, by omega, by simp [drain, ht]⟩
          · obtain ⟨k, hk, hd⟩ := ih rest
            refine ⟨k + 1, by omega, ?_⟩
            simp only [drain, ht, Bool.false_eq_true, if_false]
            simpa using hd

theorem drain_stops_at_streamer (n : Nat) :
    ∀ (pre rest : List InMsg), pre.length < n →
      (∀ m ∈ pre, ∃ t, m = InMsg.msg t ∧ t ≠ "streamer") →
      drain n (pre ++ InMsg.msg "streamer" :: rest) = rest := by
  induction n with
  | zero => intro pre rest h _; omega
  | succ n ih =>
      intro pre rest hlen hpre
      match pre with
      | [] => simp [drain]
      | m :: pre =>
          obtain ⟨t, hm, hts⟩ := hpre m (List.mem_cons_self m pre)
          subst hm
          have : (t == "streamer") = false := by
            simpa using hts
          simp only [List.cons_append, drain, this, Bool.false_eq_true,
            if_false]
          exact ih pre rest
            (by simp only [List.length_cons] at hlen; omega)
            (fun m hm => hpre m (List.mem_cons_of_mem _ hm))

theorem drain_stops_at_timeout (n : Nat) :
    ∀ (pre rest : List InMsg), pre.length < n →
      (∀ m ∈ pre, ∃ t, m = InMsg.msg t ∧ t ≠ "streamer") →
      drain n (pre ++ InMsg.timeout :: rest) = rest := by
  induction n with
  | zero => intro pre rest h _; omega
  | succ n ih =>
      intro pre rest hlen hpre
      match pre with
      | [] => simp [drain]
      | m :: pre =>
          obtain ⟨t, hm, hts⟩ := hpre m (List.mem_cons_self m pre)
          subst hm
          have : (t == "streamer") = false := by
            simpa using hts
          simp only [List.cons_append, drain, this, Bool.false_eq_true,
            if_false]
          exact ih pre rest
            (by simp only [List.length_cons] at hlen; omega)
            (fun m hm => hpre m (List.mem_cons_of_mem _ hm))

/-- Claim C6 (confirmed): the post-connect drain consumes at most 20
elements of the inbound stream (so at most 20 messages), leaving later
consumers a suffix of the stream — every drained message is discarded,
and the frame a `ws_send` caller produces carries only the payload of the
caller, never a drained message. The drain stops early as soon as a
`streamer` message is observed, and at the first `recv` timeout. -/
theorem C6_drain_behavior (s : List InMsg) (etype : String) (ev : Json) :
    (∃ k, k ≤ 20 ∧ drain 20 s = s.drop k) ∧
    (ws_send etype ev s).1 = ⟨etype, ev⟩ ∧
    (ws_send etype ev s).2 = drain 20 s ∧
    (∀ pre rest, pre.length < 20 →
      (∀ m ∈ pre, ∃ t, m = InMsg.msg t ∧ t ≠ "streamer") →
      drain 20 (pre ++ InMsg.msg "streamer" :: rest) = rest) ∧
    (∀ pre rest, pre.length < 20 →
      (∀ m ∈ pre, ∃ t, m = InMsg.msg t ∧ t ≠ "streamer") →
      drain 20 (pre ++ InMsg.timeout :: rest) = rest) :=
  ⟨drain_is_drop 20 s, rfl, rfl,
   fun pre rest h1 h2 => drain_stops_at_streamer 20 pre rest h1 h2,
   fun pre rest h1 h2 => drain_stops_at_timeout 20 pre rest h1 h2⟩

/-- Claim C6, witness: a concrete burst of two HID state messages
followed by a `streamer` message is drained exactly up to the `streamer`
message, and the sent frame is the payload of the caller. -/
theorem C6_drain_behavior_witness :
    drain 20 [InMsg.msg "hid", InMsg.msg "atx",
      InMsg.msg "streamer", InMsg.msg "later"] = [InMsg.msg "later"] ∧
    (ws_send "key" (Json.obj []) []).1.event_type = "key" := by
  have h := C6_drain_behavior
    [InMsg.msg "hid", InMsg.msg "atx", InMsg.msg "streamer",
     InMsg.msg "later"] "key" (Json.obj [])
  refine ⟨?_, ?_⟩
  · have := (C6_drain_behavior ([] : List InMsg) "key" (Json.obj [])).2.2.2.1
      [InMsg.msg "hid", InMsg.msg "atx"] [InMsg.msg "later"]
      (by decide)
      (by
        intro m hm
        simp only [List.mem_cons, List.not_mem_nil, or_false] at hm
        rcases hm with rfl | rfl
        · exact ⟨"hid", rfl, by decide⟩
        · exact ⟨"atx", rfl, by decide⟩)
    simpa using this
  · exact congrArg Frame.event_type h.2.1

/-! ## Claim C7 -/

/-- `AsyncKVMClient._api_get` viewed together with the cached-token
state: an ordinary API call neither reads nor writes `self._token` — it
authenticates with the HTTP basic credentials installed on the client —
so its outcome never depends on whether a token is cached. -/
def api_get_tok (tok : Option Json) (status : Nat) (body : Json) :
    Except ApiFailure Json × Option Json :=
  (check_response status body, tok)

/-- Claim C7, counterexample: with a cached falsy token (the empty
string), `_ensure_token` does NOT return the cached token with no
request — `if self._token:` is a truthiness test, so it re-issues the
login request (here failing, raising `AuthError`). -/
theorem C7_cached_empty_token_reissues_login :
    ensure_token (some (Json.str "")) (Json.obj []) =
      (.error (.auth "Login failed"), some (Json.str ""), 1) :=
  rfl

/-- Claim C7, amended: `_ensure_token` returns the cached token without
issuing any request when a TRUTHY (e.g. non-empty) token is cached — a
cached falsy token re-issues the login like an absent one. Otherwise it
performs one login request: when the device reports failure (`ok` falsy)
it raises `AuthError` and the token stays uncached; on success it caches
and returns `body["result"]["token"]`. Ordinary API calls never consult
the token, so they are unaffected by a failed login. -/
theorem C7_ensure_token_behavior (t body r tokv : Json)
    (tok tok2 : Option Json) (status : Nat) :
    (t.truthy = true → ensure_token (some t) body = (.ok t, some t, 0)) ∧
    ((body.getD "ok" .null).truthy = false →
      ensure_token none body = (.error (.auth "Login failed"), none, 1)) ∧
    ((body.getD "ok" .null).truthy = true → body.get "result" = some r →
      r.get "token" = some tokv →
      ensure_token none body = (.ok tokv, some tokv, 1)) ∧
    ((api_get_tok tok status body).1 = (api_get_tok tok2 status body).1 ∧
      (api_get_tok tok status body).2 = tok) := by
  refine ⟨?_, ?_, ?_, rfl, rfl⟩
  · intro h
    simp [ensure_token, h]
  · intro h
    simp [ensure_token, ensure_token.ensureTokenLogin, h]
  · intro h hr ht
    simp [ensure_token, ensure_token.ensureTokenLogin, h, hr, ht]

/-- Claim C7, witness: a truthy cached token is returned with zero
requests; a failed login from an uncached state raises `AuthError`
leaving the token uncached; a successful login caches the extracted
token; and an unrelated API call gives the same outcome with and without
a cached token. -/
theorem C7_ensure_token_behavior_witness :
    ensure_token (some (Json.str "tok123")) (Json.obj []) =
      (.ok (.str "tok123"), some (.str "tok123"), 0) ∧
    ensure_token none (Json.obj [("ok", Json.bool false)]) =
      (.error (.auth "Login failed"), none, 1) ∧
    ensure_token none (Json.obj [("ok", Json.bool true),
        ("result", Json.obj [("token", Json.str "fresh")])]) =
      (.ok (.str "fresh"), some (.str "fresh"), 1) ∧
    (api_get_tok none 200 (Json.obj [("ok", Json.bool true)])).1 =
      (api_get_tok (some (.str "tok123")) 200
        (Json.obj [("ok", Json.bool true)])).1 := by
  have h1 := (C7_ensure_token_behavior (.str "tok123") (.obj [])
    .null .null none none 200).1 rfl
  have h2 := (C7_ensure_token_behavior .null
    (.obj [("ok", Json.bool false)]) .null .null none none 200).2.1 rfl
  have h3 := (C7_ensure_token_behavior .null
    (.obj [("ok", Json.bool true),
      ("result", Json.obj [("token", Json.str "fresh")])])
    (.obj [("token", Json.str "fresh")]) (.str "fresh")
    none none 200).2.2.1 rfl rfl rfl
  have h4 := (C7_ensure_token_behavior .null
    (.obj [("ok", Json.bool true)]) .null .null
    none (some (.str "tok123")) 200).2.2.2.1
  exact ⟨h1, h2, h3, h4⟩

/-! ## Claim C8 -/

/-- Claim C8, counterexample: with a supplied empty-string image name,
`upload` does NOT use the supplied name as the `image` parameter —
`name = image_name or path.name` falls back to the base name of the
file. -/
theorem C8_empty_image_name_falls_back :
    upload (fun p => if p = "isos/disk.iso" then some [7, 7] else none)
        "isos/disk.iso" (some "") =
      some { path := "msd/write", image := "disk.iso", body := [7, 7] } ∧
    "disk.iso" ≠ "" := by
  refine ⟨?_, by decide⟩
  decide

/-- Claim C8, amended: `upload` reads the full file contents and posts
exactly those bytes as the request body to the `msd/write` endpoint,
with the `image` query parameter equal to the supplied image name when a
NON-EMPTY one is given, and otherwise (name omitted, or supplied empty —
a Python truthiness fallback) equal to the base name of the file. -/
theorem C8_upload_behavior (fs : String → Option (List Nat))
    (filePath : String) (data : List Nat) (n : String)
    (hread : fs filePath = some data) :
    (n ≠ "" → upload fs filePath (some n) =
      some { path := "msd/write", image := n, body := data }) ∧
    upload fs filePath none =
      some { path := "msd/write", image := baseName filePath, body := data } ∧
    upload fs filePath (some "") =
      some { path := "msd/write", image := baseName filePath, body := data } := by
  refine ⟨fun hn => ?_, ?_, ?_⟩
  · simp [upload, hread, hn]
  · simp [upload, hread]
  · simp [upload, hread]

/-- Claim C8, witness: a concrete file uploaded with a non-empty supplied
name and with no name. -/
theorem C8_upload_behavior_witness :
    upload (fun p => if p = "isos/disk.iso" then some [1, 2, 3] else none)
        "isos/disk.iso" (some "win.iso") =
      some { path := "msd/write", image := "win.iso", body := [1, 2, 3] } ∧
    upload (fun p => if p = "isos/disk.iso" then some [1, 2, 3] else none)
        "isos/disk.iso" none =
      some { path := "msd/write", image := "disk.iso", body := [1, 2, 3] } := by
  have h := C8_upload_behavior
    (fun p => if p = "isos/disk.iso" then some [1, 2, 3] else none)
    "isos/disk.iso" [1, 2, 3] "win.iso" (by simp)
  refine ⟨h.1 (by decide), ?_⟩
  have h2 := h.2.1
  have hb : baseName "isos/disk.iso" = "disk.iso" := by decide
  rw [hb] at h2
  exact h2

/-! ## Claim C9: serialized WebSocket establishment

`_ensure_ws` (async_client.py lines 120-147) runs its whole body inside
`async with self._ws_lock`. We model two concurrent `_ensure_ws` callers
(task `false` and task `true`) as a small-step interleaved system whose
per-task program counter follows the body of `_ensure_ws`, with a
scheduling point at every `await` (lock acquisition, `ping`, `connect`,
the drain). The lock is held across all of them. `alive c` is the
outcome of `await self._ws.ping()` on connection `c`: `true` when the
probe succeeds. Every established connection gets a fresh id `nextId`
and is recorded in `opened`. -/

/-- Program counter of one `_ensure_ws` caller: waiting on
`async with self._ws_lock`; holding the lock and probing/inspecting
`self._ws`; holding the lock and about to `connect`; holding the lock
and draining the fresh connection; returned. -/
inductive TaskPC where
  | start : TaskPC
  | check : TaskPC
  | connecting : TaskPC
  | draining : TaskPC
  | done : TaskPC
deriving DecidableEq

/-- The shared session state for the two concurrent `_ensure_ws` calls:
the holder of `self._ws_lock` (if held), both program counters, the
cached `self._ws` handle, the next fresh connection id, and all
connections ever opened. -/
structure WsSys where
  lock : Option Bool
  pc : Bool → TaskPC
  ws : Option Nat
  nextId : Nat
  opened : List Nat

/-- One scheduler step of task `i` in `_ensure_ws`. A task whose program
counter is `start` acquires the free lock or stays blocked; at `check`
it returns the cached connection when the `ping` probe succeeds, else
clears `self._ws` and proceeds to connect; at `connecting` it opens a
fresh connection and caches it; at `draining` it finishes the drain,
releases the lock and returns. Only this path ever creates or replaces
the connection. -/
def wsStep (alive : Nat → Bool) (s : WsSys) (i : Bool) : WsSys :=
  match s.pc i with
  | .start =>
      match s.lock with
      | none => { s with lock := some i, pc := Function.update s.pc i .check }
      | some _ => s
  | .check =>
      match s.ws with
      | some c =>
          if alive c then
            { s with pc := Function.update s.pc i .done, lock := none }
          else
            { s with ws := none, pc := Function.update s.pc i .connecting }
      | none => { s with pc := Function.update s.pc i .connecting }
  | .connecting =>
      { s with ws := some s.nextId, opened := s.nextId :: s.opened,
               nextId := s.nextId + 1,
               pc := Function.update s.pc i .draining }
  | .draining =>
      { s with pc := Function.update s.pc i .done, lock := none }
  | .done => s

/-- Run an arbitrary interleaving (a schedule of task ids) from a
state. -/
def wsRun (alive : Nat → Bool) (trace : List Bool) (s : WsSys) : WsSys :=
  trace.foldl (wsStep alive) s

/-- The initial session state: lock free, both callers about to enter
`_ensure_ws`, no WebSocket yet, nothing opened. -/
def wsInit : WsSys :=
  { lock := none, pc := fun _ => .start, ws := none, nextId := 0,
    opened := [] }

/-- Task `i` is inside the `async with self._ws_lock` block. -/
def inCrit (p : TaskPC) : Prop :=
  p = .check ∨ p = .connecting ∨ p = .draining

/-- The inductive invariant: a task inside the critical section holds
the lock (mutual exclusion); while some task sits between clearing
`self._ws` and connecting, the handle is empty; every opened connection
is either the currently cached one or failed its liveness probe; opened
ids are distinct and below `nextId`. -/
def WsInv (alive : Nat → Bool) (s : WsSys) : Prop :=
  (∀ i, inCrit (s.pc i) → s.lock = some i) ∧
  ((∃ i, s.pc i = .connecting) → s.ws = none) ∧
  (∀ c ∈ s.opened, s.ws = some c ∨ alive c = false) ∧
  s.opened.Nodup ∧
  (∀ c ∈ s.opened, c < s.nextId)

theorem wsInv_init (alive : Nat → Bool) : WsInv alive wsInit := by
  refine ⟨?_, ?_, ?_, ?_, ?_⟩ <;> simp [wsInit, inCrit, List.Nodup]

theorem crit_update_cases {pc : Bool → TaskPC} {i j : Bool} {p : TaskPC}
    (hj : inCrit (Function.update pc i p j)) :
    (j = i ∧ inCrit p) ∨ (j ≠ i ∧ inCrit (pc j)) := by
  by_cases hij : j = i
  · subst hij
    rw [Function.update_same] at hj
    exact Or.inl ⟨rfl, hj⟩
  · rw [Function.update_noteq hij] at hj
    exact Or.inr ⟨hij, hj⟩

theorem eq_update_cases {pc : Bool → TaskPC} {i j : Bool} {p q : TaskPC}
    (hj : Function.update pc i p j = q) :
    (j = i ∧ p = q) ∨ (j ≠ i ∧ pc j = q) := by
  by_cases hij : j = i
  · subst hij
    rw [Function.update_same] at hj
    exact Or.inl ⟨rfl, hj⟩
  · rw [Function.update_noteq hij] at hj
    exact Or.inr ⟨hij, hj⟩

theorem wsInv_step (alive : Nat → Bool) (s : WsSys) (i : Bool)
    (h : WsInv alive s) : WsInv alive (wsStep alive s i) := by
  obtain ⟨hlock, hconn, hopen, hnd, hbound⟩ := h
  cases hpc : s.pc i with
  | start =>
      cases hl : s.lock with
      | none =>
          have hstep : wsStep alive s i =
              { s with lock := some i,
                       pc := Function.update s.pc i .check } := by
            simp [wsStep, hpc, hl]
          rw [hstep]
          refine ⟨?_, ?_, hopen, hnd, hbound⟩
          · intro j hj
            rcases crit_update_cases hj with ⟨rfl, _⟩ | ⟨hij, hjc⟩
            · rfl
            · have hc := hlock j hjc
              rw [hl] at hc
              exact Option.noConfusion hc
          · rintro ⟨j, hj⟩
            rcases eq_update_cases hj with ⟨rfl, hp⟩ | ⟨hij, hjc⟩
            · exact TaskPC.noConfusion hp
            · have hc := hlock j (Or.inr (Or.inl hjc))
              rw [hl] at hc
              exact Option.noConfusion hc
      | some j0 =>
          have hstep : wsStep alive s i = s := by
            simp [wsStep, hpc, hl]
          rw [hstep]
          exact ⟨hlock, hconn, hopen, hnd, hbound⟩
  | check =>
      have hli : s.lock = some i := hlock i (Or.inl hpc)
      have hother : ∀ j, j ≠ i → ¬ inCrit (s.pc j) := by
        intro j hij hj
        have hc := hlock j hj
        rw [hli] at hc
        exact hij (by simpa using hc.symm)
      cases hw : s.ws with
      | some c =>
          cases hac : alive c with
          | true =>
              have hstep : wsStep alive s i =
                  { s with pc := Function.update s.pc i .done,
                           lock := none } := by
                simp [wsStep, hpc, hw, hac]
              rw [hstep]
              refine ⟨?_, ?_, hopen, hnd, hbound⟩
              · intro j hj
                rcases crit_update_cases hj with ⟨rfl, hcrit⟩ | ⟨hij, hjc⟩
                · simp [inCrit] at hcrit
                · exact absurd hjc (hother j hij)
              · rintro ⟨j, hj⟩
                rcases eq_update_cases hj with ⟨rfl, hp⟩ | ⟨hij, hjc⟩
                · exact TaskPC.noConfusion hp
                · exact absurd (Or.inr (Or.inl hjc)) (hother j hij)
          | false =>
              have hstep : wsStep alive s i =
                  { s with ws := none,
                           pc := Function.update s.pc i .connecting } := by
                simp [wsStep, hpc, hw, hac]
              rw [hstep]
              refine ⟨?_, fun _ => rfl, ?_, hnd, hbound⟩
              · intro j hj
                rcases crit_update_cases hj with ⟨rfl, _⟩ | ⟨hij, hjc⟩
                · exact hli
                · exact absurd hjc (hother j hij)
              · intro d hd
                rcases hopen d hd with hws | hdead
                · rw [hw] at hws
                  have hcd : c = d := Option.some_inj.mp hws
                  exact Or.inr (hcd ▸ hac)
                · exact Or.inr hdead
      | none =>
          have hstep : wsStep alive s i =
              { s with pc := Function.update s.pc i .connecting } := by
            simp [wsStep, hpc, hw]
          rw [hstep]
          refine ⟨?_, fun _ => hw, hopen, hnd, hbound⟩
          · intro j hj
            rcases crit_update_cases hj with ⟨rfl, _⟩ | ⟨hij, hjc⟩
            · exact hli
            · exact absurd hjc (hother j hij)
  | connecting =>
      have hli : s.lock = some i := hlock i (Or.inr (Or.inl hpc))
      have hwnone : s.ws = none := hconn ⟨i, hpc⟩
      have hother : ∀ j, j ≠ i → ¬ inCrit (s.pc j) := by
        intro j hij hj
        have hc := hlock j hj
        rw [hli] at hc
        exact hij (by simpa using hc.symm)
      have hstep : wsStep alive s i =
          { s with ws := some s.nextId, opened := s.nextId :: s.opened,
                   nextId := s.nextId + 1,
                   pc := Function.update s.pc i .draining } := by
        simp [wsStep, hpc]
      rw [hstep]
      refine ⟨?_, ?_, ?_, ?_, ?_⟩
      · intro j hj
        rcases crit_update_cases hj with ⟨rfl, _⟩ | ⟨hij, hjc⟩
        · exact hli
        · exact absurd hjc (hother j hij)
      · rintro ⟨j, hj⟩
        rcases eq_update_cases hj with ⟨rfl, hp⟩ | ⟨hij, hjc⟩
        · exact TaskPC.noConfusion hp
        · exact absurd (Or.inr (Or.inl hjc)) (hother j hij)
      · intro d hd
        rcases List.mem_cons.mp hd with rfl | hd2
        · exact Or.inl rfl
        · rcases hopen d hd2 with hws | hdead
          · rw [hwnone] at hws
            exact Option.noConfusion hws
          · exact Or.inr hdead
      · show (s.nextId :: s.opened).Nodup
        refine List.nodup_cons.mpr ⟨?_, hnd⟩
        intro hmem
        exact absurd (hbound _ hmem) (Nat.lt_irrefl _)
      · intro d hd
        show d < s.nextId + 1
        rcases List.mem_cons.mp hd with rfl | hd2
        · omega
        · have := hbound d hd2
          omega
  | draining =>
      have hli : s.lock = some i := hlock i (Or.inr (Or.inr hpc))
      have hother : ∀ j, j ≠ i → ¬ inCrit (s.pc j) := by
        intro j hij hj
        have hc := hlock j hj
        rw [hli] at hc
        exact hij (by simpa using hc.symm)
      have hstep : wsStep alive s i =
          { s with pc := Function.update s.pc i .done, lock := none } := by
        simp [wsStep, hpc]
      rw [hstep]
      refine ⟨?_, ?_, hopen, hnd, hbound⟩
      · intro j hj
        rcases crit_update_cases hj with ⟨rfl, hcrit⟩ | ⟨hij, hjc⟩
        · simp [inCrit] at hcrit
        · exact absurd hjc (hother j hij)
      · rintro ⟨j, hj⟩
        rcases eq_update_cases hj with ⟨rfl, hp⟩ | ⟨hij, hjc⟩
        · exact TaskPC.noConfusion hp
        · exact absurd (Or.inr (Or.inl hjc)) (hother j hij)
  | done =>
      have hstep : wsStep alive s i = s := by
        simp [wsStep, hpc]
      rw [hstep]
      exact ⟨hlock, hconn, hopen, hnd, hbound⟩

theorem wsInv_run (alive : Nat → Bool) (trace : List Bool) (s : WsSys)
    (h : WsInv alive s) : WsInv alive (wsRun alive trace s) := by
  induction trace generalizing s with
  | nil => exact h
  | cons i trace ih => exact ih _ (wsInv_step alive s i h)

theorem length_le_one_of_all_eq (l : List Nat) (w : Nat)
    (hnd : l.Nodup) (h : ∀ a ∈ l, a = w) : l.length ≤ 1 := by
  match l with
  | [] => simp
  | [a] => simp
  | a :: b :: t =>
      exfalso
      have ha : a = w := h a (by simp)
      have hb : b = w := h b (by simp)
      have hab : a ≠ b := by
        have hcons := List.nodup_cons.mp hnd
        intro heq
        exact hcons.1 (heq ▸ List.mem_cons_self b t)
      exact hab (ha.trans hb.symm)

/-- Claim C9 (confirmed): WebSocket establishment is serialized under
`self._ws_lock`, and only the `_ensure_ws` path creates or replaces the
connection. In every interleaving of two concurrent `_ensure_ws` calls,
at most one live connection — one whose liveness probe succeeds — exists
at any point; and when every opened connection stays alive (so the
second caller sees the one opened first as live), the two calls open at
most one connection in total, never two. -/
theorem C9_ws_serialization (alive : Nat → Bool) (trace : List Bool) :
    ((wsRun alive trace wsInit).opened.filter (fun c => alive c)).length ≤ 1 ∧
    (wsRun (fun _ => true) trace wsInit).opened.length ≤ 1 := by
  constructor
  · obtain ⟨-, -, hopen, hnd, -⟩ := wsInv_run alive trace wsInit
      (wsInv_init alive)
    cases hw : (wsRun alive trace wsInit).ws with
    | none =>
        have hnil : (wsRun alive trace wsInit).opened.filter
            (fun c => alive c) = [] := by
          rw [List.filter_eq_nil_iff]
          intro c hc hac
          rcases hopen c hc with hws | hdead
          · rw [hw] at hws
            exact Option.noConfusion hws
          · rw [hdead] at hac
            simp at hac
        simp [hnil]
    | some w =>
        refine length_le_one_of_all_eq _ w (hnd.filter _) ?_
        intro c hc
        have hc2 := List.mem_filter.mp hc
        rcases hopen c hc2.1 with hws | hdead
        · rw [hw] at hws
          exact (Option.some_inj.mp hws).symm
        · rw [hdead] at hc2
          exact absurd hc2.2 (by simp)
  · obtain ⟨-, -, hopen, hnd, -⟩ := wsInv_run (fun _ => true) trace wsInit
      (wsInv_init _)
    cases hw : (wsRun (fun _ => true) trace wsInit).ws with
    | none =>
        match hop : (wsRun (fun _ => true) trace wsInit).opened with
        | [] => simp
        | c :: t =>
            exfalso
            have hm := hopen c (by rw [hop]; exact List.mem_cons_self c t)
            rcases hm with hws | hdead
            · rw [hw] at hws
              exact Option.noConfusion hws
            · simp at hdead
    | some w =>
        refine length_le_one_of_all_eq _ w hnd ?_
        intro c hc
        rcases hopen c hc with hws | hdead
        · rw [hw] at hws
          exact (Option.some_inj.mp hws).symm
        · exact absurd hdead (by simp)

end Kvmboi
